import Mathlib

/-!
Shallow embedding of the audio feature-extraction core of the repository
(`src/lib/audio/mlAudioAnalysis.ts` and the `audioUtils` spectral helpers).

Modelling conventions:
* a decoded mono channel (`Float32Array`) is a `List ℝ`; the sample rate is a `ℕ`
  (the data model requires an integer sample rate);
* JavaScript float arithmetic is modelled by exact real arithmetic; loops that
  accumulate a sum or a product become `Finset.range` sums/products over the loop
  indices, with the loop body's `if` guards kept as `if` terms inside;
* `Math.floor` on a non-negative float is `Int.floor` (or `Nat` division where the
  source divides two integers), `Math.round` is `round` (`⌊x + 1/2⌋`, exactly
  JavaScript's round-half-up for the non-negative values that reach it), and the
  JavaScript `%` remainder is `Int.tmod`;
* display-only data (plugin preset lists, the human-readable match description)
  is omitted: no analysed claim mentions it.
-/

noncomputable section

/-- Spectral descriptor record (`{centroid, bandwidth, rolloff, flatness}`). -/
structure SpectralFeatures where
  centroid : ℝ
  bandwidth : ℝ
  rolloff : ℝ
  flatness : ℝ

/-- Temporal descriptor record (`{zcr, energy, rms}`). -/
structure TemporalFeatures where
  zcr : ℝ
  energy : ℝ
  rms : ℝ

/-- Harmonic descriptor record (`{harmonicity, inharmonicity, pitch}`). -/
structure HarmonicFeatures where
  harmonicity : ℝ
  inharmonicity : ℝ
  pitch : ℝ

/-- The composite feature record returned by `MLAudioAnalyzer.extractFeatures`. -/
structure MLAudioFeatures where
  spectralFeatures : SpectralFeatures
  temporalFeatures : TemporalFeatures
  harmonicFeatures : HarmonicFeatures
  mfcc : List ℝ
  chroma : List ℝ
  tonnetz : List ℝ

namespace audioUtils

/-- Frequency of bin `i` of a magnitude spectrum of length `len` at sample rate
`sr`: the source's repeated expression `(i * sampleRate) / (2 * spectrum.length)`. -/
def binFreq (i len sr : ℕ) : ℝ := ((i : ℝ) * (sr : ℝ)) / (2 * (len : ℝ))

/-- Real part of DFT bin `k`: `Σ x[n]·cos(-2πkn/N)` (`audioUtils.performFFT`). -/
def fftReal (signal : List ℝ) (k : ℕ) : ℝ :=
  ∑ n in Finset.range signal.length,
    signal.getD n 0 * Real.cos (-(2 * Real.pi * (k : ℝ) * (n : ℝ)) / (signal.length : ℝ))

/-- Imaginary part of DFT bin `k`: `Σ x[n]·sin(-2πkn/N)` (`audioUtils.performFFT`). -/
def fftImag (signal : List ℝ) (k : ℕ) : ℝ :=
  ∑ n in Finset.range signal.length,
    signal.getD n 0 * Real.sin (-(2 * Real.pi * (k : ℝ) * (n : ℝ)) / (signal.length : ℝ))

/-- Source `audioUtils.performFFT`: a direct-form magnitude spectrum.  `new
Float32Array(N / 2)` truncates the length to `⌊N/2⌋` (`Nat` division), the loop
fills every bin `k < ⌊N/2⌋` with `sqrt(real² + imag²)` (for odd `N` the final
iteration's out-of-bounds store is discarded, as in JavaScript). -/
def performFFT (signal : List ℝ) : List ℝ :=
  (List.range (signal.length / 2)).map fun k =>
    Real.sqrt (fftReal signal k ^ 2 + fftImag signal k ^ 2)

/-- Source `audioUtils.calculateSpectralCentroid`. -/
def calculateSpectralCentroid (spectrum : List ℝ) (sr : ℕ) : ℝ :=
  let weightedSum := ∑ i in Finset.range spectrum.length,
    binFreq i spectrum.length sr * spectrum.getD i 0
  let magnitudeSum := ∑ i in Finset.range spectrum.length, spectrum.getD i 0
  if 0 < magnitudeSum then weightedSum / magnitudeSum else 0

/-- Cumulative squared-magnitude energy through bin `i` (inclusive), the loop
accumulator of `audioUtils.calculateSpectralRolloff`. -/
def cumEnergy (spectrum : List ℝ) (i : ℕ) : ℝ :=
  ∑ j in Finset.range (i + 1), spectrum.getD j 0 ^ 2

/-- Source `audioUtils.calculateSpectralRolloff`: the first bin whose cumulative squared
energy reaches `threshold × total` gives the rolloff frequency; if no bin does
(in particular if the spectrum is empty) the result is Nyquist `sr/2`. -/
def calculateSpectralRolloff (spectrum : List ℝ) (sr : ℕ) (threshold : ℝ) : ℝ :=
  let totalEnergy := ∑ j in Finset.range spectrum.length, spectrum.getD j 0 ^ 2
  match (List.range spectrum.length).find?
      (fun i => decide (totalEnergy * threshold ≤ cumEnergy spectrum i)) with
  | some i => binFreq i spectrum.length sr
  | none => (sr : ℝ) / 2

/-- MIDI-style pitch of a frequency: `12·log2(freq/440) + 69`
(`audioUtils.calculateChroma`). -/
def chromaPitch (freq : ℝ) : ℝ := 12 * Real.logb 2 (freq / 440) + 69

/-- Pitch-class index `Math.round(pitch) % 12` (JavaScript `%` is the truncating
remainder, `Int.tmod`). -/
def chromaIndex (freq : ℝ) : ℤ := Int.tmod (round (chromaPitch freq)) 12

/-- Total magnitude accumulated into pitch class `c` by the loop of
`audioUtils.calculateChroma`: bins `i ≥ 1` whose frequency lies strictly inside
(80, 8000) Hz and whose pitch-class index is `c` (the source also re-checks
`0 ≤ index < 12` before storing). -/
def chromaRaw (spectrum : List ℝ) (sr : ℕ) (c : ℤ) : ℝ :=
  ∑ i in Finset.range spectrum.length,
    if 1 ≤ i ∧ 80 < binFreq i spectrum.length sr ∧ binFreq i spectrum.length sr < 8000 ∧
        0 ≤ chromaIndex (binFreq i spectrum.length sr) ∧
        chromaIndex (binFreq i spectrum.length sr) < 12 ∧
        chromaIndex (binFreq i spectrum.length sr) = c
    then spectrum.getD i 0 else 0

/-- Source `audioUtils.calculateChroma`: accumulate magnitude per pitch class, then
normalize the 12-vector to sum 1 when the total is positive. -/
def calculateChroma (spectrum : List ℝ) (sr : ℕ) : List ℝ :=
  let raw := (List.range 12).map fun c : ℕ => chromaRaw spectrum sr (c : ℤ)
  let s := raw.sum
  if 0 < s then raw.map (fun x => x / s) else raw

end audioUtils

namespace MLAudioAnalyzer

/-- Source `MLAudioAnalyzer.extractTemporalFeatures`: sign changes between consecutive
samples (the loop over `i ≥ 1` comparing `signal[i] > 0` with `signal[i-1] > 0`). -/
def zeroCrossings (signal : List ℝ) : ℕ :=
  ∑ i in Finset.range signal.length,
    if 1 ≤ i ∧ ¬((0 < signal.getD i 0) ↔ (0 < signal.getD (i - 1) 0)) then 1 else 0

/-- Source `MLAudioAnalyzer.extractTemporalFeatures`. -/
def extractTemporalFeatures (signal : List ℝ) (sampleRate : ℕ) : TemporalFeatures :=
  let zcr := (zeroCrossings signal : ℝ) / ((signal.length : ℝ) / (sampleRate : ℝ))
  let energy := (∑ i in Finset.range signal.length, signal.getD i 0 ^ 2) / (signal.length : ℝ)
  ⟨zcr, energy, Real.sqrt energy⟩

/-- Source `MLAudioAnalyzer.calculateSpectralBandwidth`. -/
def calculateSpectralBandwidth (spectrum : List ℝ) (sr : ℕ) (centroid : ℝ) : ℝ :=
  let weightedVariance := ∑ i in Finset.range spectrum.length,
    spectrum.getD i 0 * (audioUtils.binFreq i spectrum.length sr - centroid) ^ 2
  let totalMagnitude := ∑ i in Finset.range spectrum.length, spectrum.getD i 0
  if 0 < totalMagnitude then Real.sqrt (weightedVariance / totalMagnitude) else 0

/-- Number of bins counted by `MLAudioAnalyzer.calculateSpectralFlatness`
(`i ≥ 1`, skipping the DC bin, and `spectrum[i] > 0`). -/
def validBins (spectrum : List ℝ) : ℕ :=
  ∑ i in Finset.range spectrum.length,
    if 1 ≤ i ∧ 0 < spectrum.getD i 0 then 1 else 0

/-- The multiplicative accumulator of `calculateSpectralFlatness`: each valid bin
contributes `spectrum[i] ^ (1 / spectrum.length)` — note the exponent uses the
FULL spectrum length, not the number of valid bins. -/
def geoProd (spectrum : List ℝ) : ℝ :=
  ∏ i in Finset.range spectrum.length,
    if 1 ≤ i ∧ 0 < spectrum.getD i 0
    then spectrum.getD i 0 ^ (1 / (spectrum.length : ℝ)) else 1

/-- The additive accumulator of `calculateSpectralFlatness` over the valid bins. -/
def arithSum (spectrum : List ℝ) : ℝ :=
  ∑ i in Finset.range spectrum.length,
    if 1 ≤ i ∧ 0 < spectrum.getD i 0 then spectrum.getD i 0 else 0

/-- Source `MLAudioAnalyzer.calculateSpectralFlatness`: the accumulated product divided
by the arithmetic mean of the valid bins, `0` when no valid bins exist. -/
def calculateSpectralFlatness (spectrum : List ℝ) : ℝ :=
  if 0 < validBins spectrum
  then geoProd spectrum / (arithSum spectrum / (validBins spectrum : ℝ))
  else 0

/-- One candidate period's normalized autocorrelation: the mean of
`signal[i]·signal[i+p]` over `i < signal.length - period`.  The denominator is
the JavaScript float `signal.length - period` (possibly zero or negative); the
summation range uses `Nat` truncated subtraction, matching the loop which runs
only while `i < validSamples`. -/
def autocorrAt (signal : List ℝ) (p : ℕ) : ℝ :=
  (∑ i in Finset.range (signal.length - p), signal.getD i 0 * signal.getD (i + p) 0) /
    ((signal.length : ℝ) - (p : ℝ))

/-- One step of `findFundamentalFrequency`'s search: keep the first period whose
autocorrelation strictly exceeds the maximum so far (state = (maxAutocorr, bestPeriod)). -/
def periodStep (signal : List ℝ) (st : ℝ × ℕ) (p : ℕ) : ℝ × ℕ :=
  if st.1 < autocorrAt signal p then (autocorrAt signal p, p) else st

/-- The period selected by `MLAudioAnalyzer.findFundamentalFrequency`: scan
periods `⌊sampleRate/800⌋ .. ⌊sampleRate/80⌋` starting from
`(maxAutocorr, bestPeriod) = (0, minPeriod)`. -/
def bestPeriod (signal : List ℝ) (sampleRate : ℕ) : ℕ :=
  let minPeriod := sampleRate / 800
  let maxPeriod := sampleRate / 80
  ((List.range' minPeriod (maxPeriod + 1 - minPeriod)).foldl (periodStep signal)
    (0, minPeriod)).2

/-- Source `MLAudioAnalyzer.findFundamentalFrequency`: `sampleRate / bestPeriod`. -/
def findFundamentalFrequency (signal : List ℝ) (sampleRate : ℕ) : ℝ :=
  (sampleRate : ℝ) / (bestPeriod signal sampleRate : ℝ)

/-- Source `MLAudioAnalyzer.calculateHarmonicity`: the fraction of squared-magnitude
energy within 20 Hz of a positive integer multiple of the fundamental
(`harmonicNumber = Math.round(frequency / fundamental)`); `0` when the
fundamental is `≤ 0` or the total energy is not positive. -/
def calculateHarmonicity (spectrum : List ℝ) (fundamental : ℝ) (sr : ℕ) : ℝ :=
  if fundamental ≤ 0 then 0 else
  let totalEnergy := ∑ i in Finset.range spectrum.length, spectrum.getD i 0 ^ 2
  let harmonicEnergy := ∑ i in Finset.range spectrum.length,
    if |audioUtils.binFreq i spectrum.length sr -
          (round (audioUtils.binFreq i spectrum.length sr / fundamental) : ℝ) * fundamental| < 20 ∧
        0 < round (audioUtils.binFreq i spectrum.length sr / fundamental)
    then spectrum.getD i 0 ^ 2 else 0
  if 0 < totalEnergy then harmonicEnergy / totalEnergy else 0

/-- Source `MLAudioAnalyzer.extractHarmonicFeatures`: inharmonicity is `1 - harmonicity`
by construction. -/
def extractHarmonicFeatures (signal : List ℝ) (sampleRate : ℕ) : HarmonicFeatures :=
  let spectrum := audioUtils.performFFT (signal.take 2048)
  let fundamental := findFundamentalFrequency signal sampleRate
  let harmonicity := calculateHarmonicity spectrum fundamental sampleRate
  ⟨harmonicity, 1 - harmonicity, fundamental⟩

/-- Source `MLAudioAnalyzer.hzToMel`. -/
def hzToMel (hz : ℝ) : ℝ := 2595 * Real.logb 10 (1 + hz / 700)

/-- Source `MLAudioAnalyzer.melToHz`. -/
def melToHz (mel : ℝ) : ℝ := 700 * ((10 : ℝ) ^ (mel / 2595) - 1)

/-- Bin index `⌊hzPoint · numBins · 2 / sampleRate⌋` of the `i`-th mel point
(`createMelFilterBank`'s `binPoints`). -/
def binPoint (numBins sampleRate numFilters : ℕ) (i : ℕ) : ℤ :=
  ⌊melToHz (hzToMel 0 + (i : ℝ) *
      ((hzToMel ((sampleRate : ℝ) / 2) - hzToMel 0) / ((numFilters : ℝ) + 1))) *
    (numBins : ℝ) * 2 / (sampleRate : ℝ)⌋

/-- Value at bin `j` of a triangular filter rising on `[a, b)` and falling on
`[b, c)` (the two inner loops of `createMelFilterBank`; the ranges are disjoint,
and an empty range writes nothing, leaving the initial `0`). -/
def triangleVal (a b c : ℤ) (j : ℕ) : ℝ :=
  if a ≤ (j : ℤ) ∧ (j : ℤ) < b then ((j : ℝ) - (a : ℝ)) / ((b : ℝ) - (a : ℝ))
  else if b ≤ (j : ℤ) ∧ (j : ℤ) < c then ((c : ℝ) - (j : ℝ)) / ((c : ℝ) - (b : ℝ))
  else 0

/-- Source `MLAudioAnalyzer.createMelFilterBank`: filters `1 .. numFilters`, each a
length-`numBins` triangular filter between consecutive mel bin points. -/
def createMelFilterBank (numBins sampleRate numFilters : ℕ) : List (List ℝ) :=
  (List.range numFilters).map fun i =>
    (List.range numBins).map fun j =>
      triangleVal (binPoint numBins sampleRate numFilters i)
        (binPoint numBins sampleRate numFilters (i + 1))
        (binPoint numBins sampleRate numFilters (i + 2)) j

/-- Source `MLAudioAnalyzer.applyMelFilters`. -/
def applyMelFilters (spectrum : List ℝ) (filterBank : List (List ℝ)) : List ℝ :=
  filterBank.map fun filter =>
    ∑ i in Finset.range (min spectrum.length filter.length),
      spectrum.getD i 0 * filter.getD i 0

/-- Source `MLAudioAnalyzer.discreteCosineTransform` (type-II form). -/
def discreteCosineTransform (input : List ℝ) (numCoefficients : ℕ) : List ℝ :=
  (List.range numCoefficients).map fun k =>
    ∑ n in Finset.range input.length,
      input.getD n 0 * Real.cos (Real.pi * (k : ℝ) * (2 * (n : ℝ) + 1) / (2 * (input.length : ℝ)))

/-- Source `MLAudioAnalyzer.extractMFCC` (numCoefficients defaults to 13 at the call site). -/
def extractMFCC (signal : List ℝ) (sampleRate frameSize numCoefficients : ℕ) : List ℝ :=
  let spectrum := audioUtils.performFFT (signal.take frameSize)
  let melFilters := createMelFilterBank (frameSize / 2) sampleRate 26
  let melSpectrum := applyMelFilters spectrum melFilters
  let logMelSpectrum := melSpectrum.map fun x => Real.log (x + 1e-10)
  discreteCosineTransform logMelSpectrum numCoefficients

/-- Source `MLAudioAnalyzer.extractChroma`. -/
def extractChroma (signal : List ℝ) (sampleRate frameSize : ℕ) : List ℝ :=
  audioUtils.calculateChroma (audioUtils.performFFT (signal.take frameSize)) sampleRate

/-- Source `MLAudioAnalyzer.extractTonnetz`: three chroma projections. -/
def extractTonnetz (chroma : List ℝ) : List ℝ :=
  [∑ i in Finset.range 12, chroma.getD i 0 * Real.cos (2 * Real.pi * (i : ℝ) / 3),
   ∑ i in Finset.range 12, chroma.getD i 0 * Real.sin (2 * Real.pi * (i : ℝ) / 3),
   ∑ i in Finset.range 12, chroma.getD i 0 * Real.cos (7 * (2 * Real.pi) * (i : ℝ) / 12)]

/-- Source `MLAudioAnalyzer.extractSpectralFeatures` (rolloff threshold 0.85). -/
def extractSpectralFeatures (signal : List ℝ) (frameSize sampleRate : ℕ) : SpectralFeatures :=
  let spectrum := audioUtils.performFFT (signal.take frameSize)
  let centroid := audioUtils.calculateSpectralCentroid spectrum sampleRate
  ⟨centroid,
   calculateSpectralBandwidth spectrum sampleRate centroid,
   audioUtils.calculateSpectralRolloff spectrum sampleRate 0.85,
   calculateSpectralFlatness spectrum⟩

/-- Source `MLAudioAnalyzer.extractFeatures`: the analysis frame is the first 2048
samples of channel 0; temporal and harmonic descriptors use the whole buffer. -/
def extractFeatures (signal : List ℝ) (sampleRate : ℕ) : MLAudioFeatures :=
  ⟨extractSpectralFeatures signal 2048 sampleRate,
   extractTemporalFeatures signal sampleRate,
   extractHarmonicFeatures signal sampleRate,
   extractMFCC signal sampleRate 2048 13,
   extractChroma signal sampleRate 2048,
   extractTonnetz (extractChroma signal sampleRate 2048)⟩

/-- The outcome of an `extractFeatures` call.  The source function contains no
`throw` statement and performs no input validation, so its only outcome is a
normal return of the record; a JavaScript exception would correspond to
`Except.error`. -/
def extractFeaturesResult (signal : List ℝ) (sampleRate : ℕ) :
    Except String MLAudioFeatures :=
  Except.ok (extractFeatures signal sampleRate)

end MLAudioAnalyzer

/-- A catalog parameter (`id`, declared range and default; the display-only
`name`/`type`/`value`/`unit` fields are omitted). -/
structure PluginParameter where
  id : String
  min : ℝ
  max : ℝ
  default : ℝ

/-- A catalog entry (`PluginDescriptor`; the display-only preset list is omitted). -/
structure AudioPlugin where
  id : String
  name : String
  manufacturer : String
  category : String
  parameters : List PluginParameter

/-- A scored match (`PluginMatch`; the human-readable `description` string is
omitted). -/
structure PluginMatch where
  pluginId : String
  similarity : ℝ
  suggestedParameters : List (String × ℝ)
  confidence : ℝ

/-- Match `a` may precede match `b` in the sorted output: the comparator
`(a, b) => b.similarity - a.similarity` orders by similarity, descending. -/
def simGE (a b : PluginMatch) : Prop := b.similarity ≤ a.similarity

noncomputable instance : DecidableRel simGE :=
  fun a b => inferInstanceAs (Decidable (b.similarity ≤ a.similarity))

instance : IsTotal PluginMatch simGE :=
  ⟨fun a b => (le_total b.similarity a.similarity).imp id id⟩

instance : IsTrans PluginMatch simGE :=
  ⟨fun _ _ _ hab hbc => le_trans hbc hab⟩

namespace PluginMatcher

/-- Source `PluginMatcher.pluginDatabase`: the static two-entry catalog (an EQ and a
compressor). -/
def pluginDatabase : List AudioPlugin :=
  [⟨"eq-vintage", "Vintage EQ", "Audio Corp", "EQ",
    [⟨"low", -20, 20, 0⟩, ⟨"mid", -20, 20, 0⟩, ⟨"high", -20, 20, 0⟩]⟩,
   ⟨"compressor-vintage", "Vintage Compressor", "Audio Corp", "Dynamics",
    [⟨"threshold", -40, 0, -10⟩, ⟨"ratio", 1, 20, 4⟩, ⟨"attack", 0.1, 100, 10⟩,
     ⟨"release", 10, 1000, 100⟩]⟩]

/-- Source `PluginMatcher.calculateSimilarity`: category-specific heuristic score,
clamped to at most 1 by the final `Math.min`. -/
def calculateSimilarity (features : MLAudioFeatures) (plugin : AudioPlugin) : ℝ :=
  let score :=
    (if plugin.category = "EQ" then
        min (features.spectralFeatures.centroid / 8000) 1 * 0.4 +
          features.spectralFeatures.flatness * 0.3
      else 0) +
    (if plugin.category = "Dynamics" then
        min (features.temporalFeatures.energy / (features.temporalFeatures.rms + 1e-10) / 10) 1 * 0.5 +
          min (features.temporalFeatures.zcr / 1000) 1 * 0.3
      else 0) +
    (if plugin.category = "Distortion" ∨ plugin.category = "Saturation" then
        (1 - features.harmonicFeatures.harmonicity) * 0.4
      else 0)
  min score 1

/-- Source `PluginMatcher.calculateBandEnergy`: a placeholder that always returns 0.5
(per the source comment, the real band energy would need the spectrum). -/
def calculateBandEnergy (_lowFreq _highFreq : ℝ) : ℝ := 0.5

/-- The per-parameter rule of `PluginMatcher.suggestParameters` (a `switch` on
the parameter id, defaulting to the declared default value). -/
def suggestedValue (features : MLAudioFeatures) (p : PluginParameter) : ℝ :=
  if p.id = "threshold" then
    max p.min (min p.max (20 * Real.logb 10 (features.temporalFeatures.rms + 1e-10) - 10))
  else if p.id = "ratio" then
    max p.min (min p.max
      (2 + features.temporalFeatures.energy / (features.temporalFeatures.rms + 1e-10)))
  else if p.id = "low" then (calculateBandEnergy 0 200 - 0.5) * 10
  else if p.id = "high" then (calculateBandEnergy 5000 20000 - 0.5) * 10
  else p.default

/-- Source `PluginMatcher.suggestParameters`. -/
def suggestParameters (features : MLAudioFeatures) (plugin : AudioPlugin) :
    List (String × ℝ) :=
  plugin.parameters.map fun p => (p.id, suggestedValue features p)

/-- Source `PluginMatcher.calculateConfidence`: the similarity plus non-negative
category boosts, capped at 1. -/
def calculateConfidence (features : MLAudioFeatures) (plugin : AudioPlugin)
    (similarity : ℝ) : ℝ :=
  min (similarity +
    (if plugin.category = "EQ" ∧ 0.7 < features.spectralFeatures.flatness then 0.2 else 0) +
    (if plugin.category = "Dynamics" ∧
        features.temporalFeatures.rms * 5 < features.temporalFeatures.energy then 0.3 else 0)) 1

/-- The match record built for one catalog entry inside `findMatches`'s loop. -/
def matchFor (features : MLAudioFeatures) (plugin : AudioPlugin) : PluginMatch :=
  ⟨plugin.id,
   calculateSimilarity features plugin,
   suggestParameters features plugin,
   calculateConfidence features plugin (calculateSimilarity features plugin)⟩

/-- Source `PluginMatcher.findMatches`: extract the features, score every catalog
entry, and sort descending by similarity (a stable sort, as JavaScript's). -/
def findMatches (signal : List ℝ) (sampleRate : ℕ) : List PluginMatch :=
  let features := MLAudioAnalyzer.extractFeatures signal sampleRate
  List.insertionSort simGE (pluginDatabase.map (matchFor features))

end PluginMatcher

/-- Finiteness of the `pitch` field: the source returns
`sampleRate / bestPeriod` as a JavaScript float, and IEEE division of a positive
number by `0` yields `+Infinity`, so the stored pitch is a finite number exactly
when the selected period is nonzero. -/
def pitchFinite (signal : List ℝ) (sampleRate : ℕ) : Prop :=
  MLAudioAnalyzer.bestPeriod signal sampleRate ≠ 0

/-! ## Generic helper lemmas -/

lemma getD_map_range (f : ℕ → ℝ) (n i : ℕ) :
    ((List.range n).map f).getD i 0 = if i < n then f i else 0 := by
  rcases lt_or_ge i n with h | h
  · rw [List.getD_eq_getElem _ _ (by simpa using h)]
    simp [h]
  · rw [List.getD_eq_default _ _ (by simpa using h), if_neg (not_lt.mpr h)]

lemma getD_silent {signal : List ℝ} (h : ∀ x ∈ signal, x = 0) (i : ℕ) :
    signal.getD i 0 = 0 := by
  rcases lt_or_ge i signal.length with hi | hi
  · rw [List.getD_eq_getElem _ _ hi]
    exact h _ (signal.getElem_mem hi)
  · exact List.getD_eq_default _ _ hi

lemma silent_take {signal : List ℝ} (h : ∀ x ∈ signal, x = 0) (n : ℕ) :
    ∀ x ∈ signal.take n, x = 0 :=
  fun x hx => h x (List.mem_of_mem_take hx)

namespace audioUtils

lemma length_performFFT (signal : List ℝ) :
    (performFFT signal).length = signal.length / 2 := by
  simp [performFFT]

lemma getD_performFFT (signal : List ℝ) (k : ℕ) :
    (performFFT signal).getD k 0 =
      if k < signal.length / 2
      then Real.sqrt (fftReal signal k ^ 2 + fftImag signal k ^ 2) else 0 :=
  getD_map_range _ _ _

lemma getD_performFFT_nonneg (signal : List ℝ) (k : ℕ) :
    0 ≤ (performFFT signal).getD k 0 := by
  rw [getD_performFFT]
  split
  · exact Real.sqrt_nonneg _
  · exact le_refl 0

lemma fftReal_silent {signal : List ℝ} (h : ∀ x ∈ signal, x = 0) (k : ℕ) :
    fftReal signal k = 0 := by
  unfold fftReal
  refine Finset.sum_eq_zero fun n _ => ?_
  rw [getD_silent h, zero_mul]

lemma fftImag_silent {signal : List ℝ} (h : ∀ x ∈ signal, x = 0) (k : ℕ) :
    fftImag signal k = 0 := by
  unfold fftImag
  refine Finset.sum_eq_zero fun n _ => ?_
  rw [getD_silent h, zero_mul]

lemma getD_performFFT_silent {signal : List ℝ} (h : ∀ x ∈ signal, x = 0) (k : ℕ) :
    (performFFT signal).getD k 0 = 0 := by
  rw [getD_performFFT]
  split
  · rw [fftReal_silent h, fftImag_silent h]
    simp
  · rfl

lemma binFreq_nonneg (i len sr : ℕ) : 0 ≤ binFreq i len sr := by
  unfold binFreq
  positivity

lemma calculateSpectralCentroid_nonneg (spectrum : List ℝ) (sr : ℕ)
    (h : ∀ i, 0 ≤ spectrum.getD i 0) :
    0 ≤ calculateSpectralCentroid spectrum sr := by
  simp only [calculateSpectralCentroid]
  split
  · rename_i hpos
    refine div_nonneg (Finset.sum_nonneg fun i _ => ?_) (le_of_lt hpos)
    exact mul_nonneg (binFreq_nonneg _ _ _) (h i)
  · exact le_refl 0

end audioUtils

namespace MLAudioAnalyzer

lemma energy_nonneg (signal : List ℝ) (sr : ℕ) :
    0 ≤ (extractTemporalFeatures signal sr).energy := by
  unfold extractTemporalFeatures
  exact div_nonneg (Finset.sum_nonneg fun i _ => sq_nonneg _) (Nat.cast_nonneg _)

lemma rms_nonneg (signal : List ℝ) (sr : ℕ) :
    0 ≤ (extractTemporalFeatures signal sr).rms := by
  unfold extractTemporalFeatures
  exact Real.sqrt_nonneg _

lemma zcr_nonneg (signal : List ℝ) (sr : ℕ) :
    0 ≤ (extractTemporalFeatures signal sr).zcr := by
  unfold extractTemporalFeatures
  exact div_nonneg (Nat.cast_nonneg _) (div_nonneg (Nat.cast_nonneg _) (Nat.cast_nonneg _))

lemma calculateSpectralFlatness_nonneg (spectrum : List ℝ) :
    0 ≤ calculateSpectralFlatness spectrum := by
  unfold calculateSpectralFlatness
  split
  · refine div_nonneg ?_ (div_nonneg ?_ (Nat.cast_nonneg _))
    · refine le_of_lt (Finset.prod_pos fun i _ => ?_)
      split
      · rename_i hc
        exact Real.rpow_pos_of_pos hc.2 _
      · exact one_pos
    · refine Finset.sum_nonneg fun i _ => ?_
      split
      · rename_i hc
        exact le_of_lt hc.2
      · exact le_refl 0
  · exact le_refl 0

lemma calculateHarmonicity_mem (spectrum : List ℝ) (fundamental : ℝ) (sr : ℕ) :
    0 ≤ calculateHarmonicity spectrum fundamental sr ∧
      calculateHarmonicity spectrum fundamental sr ≤ 1 := by
  simp only [calculateHarmonicity]
  split
  · exact ⟨le_refl 0, zero_le_one⟩
  · split
    · rename_i htot
      constructor
      · refine div_nonneg (Finset.sum_nonneg fun i _ => ?_) (le_of_lt htot)
        split
        · exact sq_nonneg _
        · exact le_refl 0
      · rw [div_le_one htot]
        refine Finset.sum_le_sum fun i _ => ?_
        split
        · exact le_refl _
        · exact sq_nonneg _
    · exact ⟨le_refl 0, zero_le_one⟩

lemma harmonicity_mem (signal : List ℝ) (sr : ℕ) :
    0 ≤ (extractHarmonicFeatures signal sr).harmonicity ∧
      (extractHarmonicFeatures signal sr).harmonicity ≤ 1 := by
  unfold extractHarmonicFeatures
  exact calculateHarmonicity_mem _ _ _

lemma centroid_nonneg (signal : List ℝ) (sr : ℕ) :
    0 ≤ (extractFeatures signal sr).spectralFeatures.centroid := by
  show 0 ≤ (extractSpectralFeatures signal 2048 sr).centroid
  unfold extractSpectralFeatures
  exact audioUtils.calculateSpectralCentroid_nonneg _ _
    (audioUtils.getD_performFFT_nonneg _)

lemma flatness_nonneg (signal : List ℝ) (sr : ℕ) :
    0 ≤ (extractFeatures signal sr).spectralFeatures.flatness := by
  show 0 ≤ (extractSpectralFeatures signal 2048 sr).flatness
  unfold extractSpectralFeatures
  exact calculateSpectralFlatness_nonneg _

end MLAudioAnalyzer

lemma ite_nonneg_zero {c : Prop} [Decidable c] {x : ℝ} (hx : 0 ≤ x) :
    0 ≤ if c then x else 0 := by
  split
  · exact hx
  · exact le_refl 0

namespace PluginMatcher

lemma similarity_mem (features : MLAudioFeatures) (plugin : AudioPlugin)
    (hc : 0 ≤ features.spectralFeatures.centroid)
    (hf : 0 ≤ features.spectralFeatures.flatness)
    (he : 0 ≤ features.temporalFeatures.energy)
    (hr : 0 ≤ features.temporalFeatures.rms)
    (hz : 0 ≤ features.temporalFeatures.zcr)
    (hh : features.harmonicFeatures.harmonicity ≤ 1) :
    0 ≤ calculateSimilarity features plugin ∧ calculateSimilarity features plugin ≤ 1 := by
  simp only [calculateSimilarity]
  refine ⟨le_min ?_ zero_le_one, min_le_right _ _⟩
  refine add_nonneg (add_nonneg (ite_nonneg_zero ?_) (ite_nonneg_zero ?_)) (ite_nonneg_zero ?_)
  · refine add_nonneg (mul_nonneg (le_min (div_nonneg hc (by norm_num)) zero_le_one) (by norm_num))
      (mul_nonneg hf (by norm_num))
  · have hden : (0:ℝ) ≤ features.temporalFeatures.rms + 1e-10 := by linarith
    refine add_nonneg
      (mul_nonneg (le_min (div_nonneg (div_nonneg he hden) (by norm_num)) zero_le_one) (by norm_num))
      (mul_nonneg (le_min (div_nonneg hz (by norm_num)) zero_le_one) (by norm_num))
  · exact mul_nonneg (by linarith) (by norm_num)

lemma confidence_mem (features : MLAudioFeatures) (plugin : AudioPlugin) (s : ℝ)
    (hs0 : 0 ≤ s) (hs1 : s ≤ 1) :
    0 ≤ calculateConfidence features plugin s ∧ calculateConfidence features plugin s ≤ 1 ∧
      s ≤ calculateConfidence features plugin s := by
  simp only [calculateConfidence]
  have h1 : (0:ℝ) ≤
      if plugin.category = "EQ" ∧ 0.7 < features.spectralFeatures.flatness then 0.2 else 0 :=
    ite_nonneg_zero (by norm_num)
  have h2 : (0:ℝ) ≤
      if plugin.category = "Dynamics" ∧
          features.temporalFeatures.rms * 5 < features.temporalFeatures.energy then 0.3 else 0 :=
    ite_nonneg_zero (by norm_num)
  exact ⟨le_min (by linarith) zero_le_one, min_le_right _ _, le_min (by linarith) hs1⟩

end PluginMatcher

/-! ## C3 -/

/-- C3: for every input buffer, the extracted harmonic features satisfy
`harmonicity + inharmonicity = 1` exactly (inharmonicity is `1 − harmonicity`
by construction) and both lie in `[0, 1]`. -/
theorem harmonicity_inharmonicity_complement (signal : List ℝ) (sampleRate : ℕ) :
    (MLAudioAnalyzer.extractFeatures signal sampleRate).harmonicFeatures.harmonicity +
        (MLAudioAnalyzer.extractFeatures signal sampleRate).harmonicFeatures.inharmonicity = 1 ∧
      0 ≤ (MLAudioAnalyzer.extractFeatures signal sampleRate).harmonicFeatures.harmonicity ∧
      (MLAudioAnalyzer.extractFeatures signal sampleRate).harmonicFeatures.harmonicity ≤ 1 ∧
      0 ≤ (MLAudioAnalyzer.extractFeatures signal sampleRate).harmonicFeatures.inharmonicity ∧
      (MLAudioAnalyzer.extractFeatures signal sampleRate).harmonicFeatures.inharmonicity ≤ 1 := by
  have hmem := MLAudioAnalyzer.harmonicity_mem signal sampleRate
  have hcompl : (MLAudioAnalyzer.extractHarmonicFeatures signal sampleRate).inharmonicity =
      1 - (MLAudioAnalyzer.extractHarmonicFeatures signal sampleRate).harmonicity := by
    simp only [MLAudioAnalyzer.extractHarmonicFeatures]
  have hfe : (MLAudioAnalyzer.extractFeatures signal sampleRate).harmonicFeatures =
      MLAudioAnalyzer.extractHarmonicFeatures signal sampleRate := rfl
  rw [hfe, hcompl]
  exact ⟨by ring, hmem.1, hmem.2, by linarith [hmem.2], by linarith [hmem.1]⟩

/-! ## C6 -/

/-- C6: for every input, `findMatches` returns exactly one match per catalog
entry (output length = catalog size), sorted non-increasing by similarity, with
every similarity and confidence value in `[0, 1]`. -/
theorem findMatches_shape (signal : List ℝ) (sampleRate : ℕ) :
    (PluginMatcher.findMatches signal sampleRate).length =
        PluginMatcher.pluginDatabase.length ∧
      List.Pairwise simGE (PluginMatcher.findMatches signal sampleRate) ∧
      (PluginMatcher.findMatches signal sampleRate).Forall
        (fun m => 0 ≤ m.similarity ∧ m.similarity ≤ 1 ∧
          0 ≤ m.confidence ∧ m.confidence ≤ 1) := by
  refine ⟨?_, ?_, ?_⟩
  · simp only [PluginMatcher.findMatches, List.length_insertionSort, List.length_map]
  · simp only [PluginMatcher.findMatches]
    exact List.sorted_insertionSort simGE _
  · rw [List.forall_iff_forall_mem]
    intro m hm
    simp only [PluginMatcher.findMatches] at hm
    have hm' := (List.perm_insertionSort simGE _).subset hm
    rcases List.mem_map.mp hm' with ⟨p, _, rfl⟩
    have hc := MLAudioAnalyzer.centroid_nonneg signal sampleRate
    have hf := MLAudioAnalyzer.flatness_nonneg signal sampleRate
    have he : 0 ≤ (MLAudioAnalyzer.extractFeatures signal sampleRate).temporalFeatures.energy :=
      MLAudioAnalyzer.energy_nonneg signal sampleRate
    have hr : 0 ≤ (MLAudioAnalyzer.extractFeatures signal sampleRate).temporalFeatures.rms :=
      MLAudioAnalyzer.rms_nonneg signal sampleRate
    have hz : 0 ≤ (MLAudioAnalyzer.extractFeatures signal sampleRate).temporalFeatures.zcr :=
      MLAudioAnalyzer.zcr_nonneg signal sampleRate
    have hh : (MLAudioAnalyzer.extractFeatures signal sampleRate).harmonicFeatures.harmonicity ≤ 1 :=
      (MLAudioAnalyzer.harmonicity_mem signal sampleRate).2
    obtain ⟨hs0, hs1⟩ := PluginMatcher.similarity_mem _ p hc hf he hr hz hh
    obtain ⟨hc0, hc1, _⟩ := PluginMatcher.confidence_mem _ p _ hs0 hs1
    exact ⟨hs0, hs1, hc0, hc1⟩

/-! ## C10 -/

/-- C10: every match returned by `findMatches` has `confidence ≥ similarity`
(the confidence starts at the similarity and only gains non-negative boosts
before the cap at 1), and the similarity itself never exceeds 1. -/
theorem confidence_ge_similarity (signal : List ℝ) (sampleRate : ℕ) :
    (PluginMatcher.findMatches signal sampleRate).Forall
      (fun m => m.similarity ≤ m.confidence ∧ m.similarity ≤ 1) := by
  rw [List.forall_iff_forall_mem]
  intro m hm
  simp only [PluginMatcher.findMatches] at hm
  have hm' := (List.perm_insertionSort simGE _).subset hm
  rcases List.mem_map.mp hm' with ⟨p, _, rfl⟩
  have hc := MLAudioAnalyzer.centroid_nonneg signal sampleRate
  have hf := MLAudioAnalyzer.flatness_nonneg signal sampleRate
  have he : 0 ≤ (MLAudioAnalyzer.extractFeatures signal sampleRate).temporalFeatures.energy :=
    MLAudioAnalyzer.energy_nonneg signal sampleRate
  have hr : 0 ≤ (MLAudioAnalyzer.extractFeatures signal sampleRate).temporalFeatures.rms :=
    MLAudioAnalyzer.rms_nonneg signal sampleRate
  have hz : 0 ≤ (MLAudioAnalyzer.extractFeatures signal sampleRate).temporalFeatures.zcr :=
    MLAudioAnalyzer.zcr_nonneg signal sampleRate
  have hh : (MLAudioAnalyzer.extractFeatures signal sampleRate).harmonicFeatures.harmonicity ≤ 1 :=
    (MLAudioAnalyzer.harmonicity_mem signal sampleRate).2
  obtain ⟨hs0, hs1⟩ := PluginMatcher.similarity_mem _ p hc hf he hr hz hh
  obtain ⟨_, _, hsc⟩ := PluginMatcher.confidence_mem _ p _ hs0 hs1
  exact ⟨hsc, hs1⟩

/-! ## Autocorrelation search helpers -/

namespace MLAudioAnalyzer

lemma autocorrAt_silent {signal : List ℝ} (h : ∀ x ∈ signal, x = 0) (p : ℕ) :
    autocorrAt signal p = 0 := by
  unfold autocorrAt
  rw [Finset.sum_eq_zero fun i _ => by rw [getD_silent h, zero_mul], zero_div]

lemma foldl_periodStep_zero (signal : List ℝ) (h : ∀ p, autocorrAt signal p = 0)
    (l : List ℕ) (b : ℕ) : l.foldl (periodStep signal) (0, b) = (0, b) := by
  induction l with
  | nil => rfl
  | cons p ps ih =>
    rw [List.foldl_cons]
    have hstep : periodStep signal (0, b) p = (0, b) := by
      unfold periodStep
      rw [h p]
      exact if_neg (lt_irrefl 0)
    rw [hstep, ih]

lemma bestPeriod_of_autocorr_zero (signal : List ℝ) (sr : ℕ)
    (h : ∀ p, autocorrAt signal p = 0) : bestPeriod signal sr = sr / 800 := by
  simp only [bestPeriod]
  rw [foldl_periodStep_zero signal h]

lemma foldl_periodStep_mem (signal : List ℝ) (lo hi : ℕ) (l : List ℕ) (st : ℝ × ℕ)
    (hst : lo ≤ st.2 ∧ st.2 ≤ hi) (hl : ∀ p ∈ l, lo ≤ p ∧ p ≤ hi) :
    lo ≤ (l.foldl (periodStep signal) st).2 ∧ (l.foldl (periodStep signal) st).2 ≤ hi := by
  induction l generalizing st with
  | nil => exact hst
  | cons p ps ih =>
    rw [List.foldl_cons]
    refine ih _ ?_ fun q hq => hl q (List.mem_cons_of_mem _ hq)
    unfold periodStep
    split
    · exact hl p (List.mem_cons_self _ _)
    · exact hst

lemma bestPeriod_mem (signal : List ℝ) (sr : ℕ) :
    sr / 800 ≤ bestPeriod signal sr ∧ bestPeriod signal sr ≤ sr / 80 := by
  have hdiv : sr / 800 ≤ sr / 80 := Nat.div_le_div_left (by norm_num) (by norm_num)
  simp only [bestPeriod]
  refine foldl_periodStep_mem signal (sr / 800) (sr / 80) _ _ ⟨le_refl _, hdiv⟩ ?_
  intro p hp
  rw [List.mem_range'_1] at hp
  omega

end MLAudioAnalyzer

/-! ## C1 -/

/-- C1 counterexample: on the empty (zero-length) buffer, `extractFeatures`
does not fail — it returns a `FeatureRecord` normally (here, at sample rate
800, with pitch field 800), refuting "fails with a descriptive error — it does
not return a FeatureRecord". -/
theorem extractFeatures_empty_returns_record :
    MLAudioAnalyzer.extractFeaturesResult [] 800 =
        Except.ok (MLAudioAnalyzer.extractFeatures [] 800) ∧
      (MLAudioAnalyzer.extractFeatures [] 800).harmonicFeatures.pitch = 800 := by
  refine ⟨rfl, ?_⟩
  have hp : (MLAudioAnalyzer.extractFeatures [] 800).harmonicFeatures.pitch =
      MLAudioAnalyzer.findFundamentalFrequency [] 800 := by
    show (MLAudioAnalyzer.extractHarmonicFeatures [] 800).pitch = _
    simp only [MLAudioAnalyzer.extractHarmonicFeatures]
  rw [hp]
  unfold MLAudioAnalyzer.findFundamentalFrequency
  rw [MLAudioAnalyzer.bestPeriod_of_autocorr_zero _ _
    (MLAudioAnalyzer.autocorrAt_silent (by intro x hx; cases hx))]
  norm_num

/-- C1 (amended): `extractFeatures` never fails: the function body contains no
validation and no throw, so on every buffer — the empty one included — its
outcome is a normal return of a feature record (on the empty buffer the
temporal fields are produced by `0/0` divisions, `NaN` in IEEE arithmetic). -/
theorem extractFeatures_never_fails (signal : List ℝ) (sampleRate : ℕ) :
    MLAudioAnalyzer.extractFeaturesResult signal sampleRate =
      Except.ok (MLAudioAnalyzer.extractFeatures signal sampleRate) := rfl

/-! ## C5 -/

/-- C5 counterexample: at sample rate 801 the search's minimum candidate period
is `⌊801/800⌋ = 1` sample, and on a silent 12-sample buffer the search keeps
that initial period, so the returned pitch is 801 Hz — outside the claimed
range `[80, 800]`. -/
theorem pitch_above_800 :
    MLAudioAnalyzer.findFundamentalFrequency (List.replicate 12 0) 801 = 801 ∧
      ¬(MLAudioAnalyzer.findFundamentalFrequency (List.replicate 12 0) 801 ≤ 800) := by
  have hz : ∀ x ∈ List.replicate 12 (0:ℝ), x = 0 := fun x hx => List.eq_of_mem_replicate hx
  have h : MLAudioAnalyzer.findFundamentalFrequency (List.replicate 12 0) 801 = 801 := by
    unfold MLAudioAnalyzer.findFundamentalFrequency
    rw [MLAudioAnalyzer.bestPeriod_of_autocorr_zero _ _ (MLAudioAnalyzer.autocorrAt_silent hz)]
    norm_num
  rw [h]
  norm_num

/-- C5 (amended): for sample rates of at least 800 Hz the estimated fundamental
lies in `[80, sampleRate/⌊sampleRate/800⌋]`; because the minimum candidate
period is the floor of `sampleRate/800`, the upper end can slightly exceed
800 Hz whenever 800 does not divide the sample rate. -/
theorem pitch_range (signal : List ℝ) (sampleRate : ℕ) (h : 800 ≤ sampleRate) :
    80 ≤ MLAudioAnalyzer.findFundamentalFrequency signal sampleRate ∧
      MLAudioAnalyzer.findFundamentalFrequency signal sampleRate ≤
        (sampleRate : ℝ) / ((sampleRate / 800 : ℕ) : ℝ) := by
  obtain ⟨h1, h2⟩ := MLAudioAnalyzer.bestPeriod_mem signal sampleRate
  have hmin : 1 ≤ sampleRate / 800 := (Nat.one_le_div_iff (by norm_num)).mpr h
  have hbp1 : 1 ≤ MLAudioAnalyzer.bestPeriod signal sampleRate := le_trans hmin h1
  have hbpR : (0:ℝ) < (MLAudioAnalyzer.bestPeriod signal sampleRate : ℝ) := by
    exact_mod_cast hbp1
  unfold MLAudioAnalyzer.findFundamentalFrequency
  constructor
  · rw [le_div_iff₀ hbpR]
    have hn : 80 * MLAudioAnalyzer.bestPeriod signal sampleRate ≤ sampleRate := by
      calc 80 * MLAudioAnalyzer.bestPeriod signal sampleRate ≤ 80 * (sampleRate / 80) :=
            Nat.mul_le_mul_left 80 h2
        _ = sampleRate / 80 * 80 := Nat.mul_comm _ _
        _ ≤ sampleRate := Nat.div_mul_le_self _ _
    exact_mod_cast hn
  · have hminR : (0:ℝ) < ((sampleRate / 800 : ℕ) : ℝ) := by exact_mod_cast hmin
    have h1R : ((sampleRate / 800 : ℕ) : ℝ) ≤ (MLAudioAnalyzer.bestPeriod signal sampleRate : ℝ) := by
      exact_mod_cast h1
    gcongr

/-- Witness for the amended C5 at sample rate 800 and a silent 12-sample buffer. -/
theorem pitch_range_witness :
    800 ≤ 800 ∧
      (80 ≤ MLAudioAnalyzer.findFundamentalFrequency (List.replicate 12 0) 800 ∧
        MLAudioAnalyzer.findFundamentalFrequency (List.replicate 12 0) 800 ≤
          (800 : ℝ) / ((800 / 800 : ℕ) : ℝ)) :=
  ⟨le_refl 800, pitch_range (List.replicate 12 0) 800 (le_refl 800)⟩

/-! ## Mel filter bank / flatness definedness helpers -/

namespace MLAudioAnalyzer

lemma triangleVal_nonneg (a b c : ℤ) (j : ℕ) : 0 ≤ triangleVal a b c j := by
  unfold triangleVal
  split
  · rename_i hc
    have h1 : (a : ℝ) ≤ (j : ℝ) := by exact_mod_cast hc.1
    have h2 : (j : ℝ) < (b : ℝ) := by exact_mod_cast hc.2
    exact div_nonneg (by linarith) (by linarith)
  · split
    · rename_i hc
      have h1 : (b : ℝ) ≤ (j : ℝ) := by exact_mod_cast hc.1
      have h2 : (j : ℝ) < (c : ℝ) := by exact_mod_cast hc.2
      exact div_nonneg (by linarith) (by linarith)
    · exact le_refl 0

lemma melSum_nonneg (spectrum : List ℝ) (hspec : ∀ i, 0 ≤ spectrum.getD i 0)
    (numBins sr nf : ℕ) :
    ∀ x ∈ applyMelFilters spectrum (createMelFilterBank numBins sr nf), 0 ≤ x := by
  intro x hx
  unfold applyMelFilters at hx
  rcases List.mem_map.mp hx with ⟨filter, hfil, rfl⟩
  refine Finset.sum_nonneg fun i _ => mul_nonneg (hspec i) ?_
  unfold createMelFilterBank at hfil
  rcases List.mem_map.mp hfil with ⟨idx, _, rfl⟩
  rw [getD_map_range]
  split
  · exact triangleVal_nonneg _ _ _ _
  · exact le_refl 0

lemma arithSum_pos (spectrum : List ℝ) (h : 0 < validBins spectrum) :
    0 < arithSum spectrum := by
  unfold validBins at h
  obtain ⟨i, hi, hne⟩ := Finset.exists_ne_zero_of_sum_ne_zero (Nat.pos_iff_ne_zero.mp h)
  have hcond : 1 ≤ i ∧ 0 < spectrum.getD i 0 := by
    by_contra hc
    rw [if_neg hc] at hne
    exact hne rfl
  unfold arithSum
  refine Finset.sum_pos' (fun j _ => ?_) ⟨i, hi, ?_⟩
  · split
    · rename_i hj
      exact le_of_lt hj.2
    · exact le_refl 0
  · rw [if_pos hcond]
    exact hcond.2

end MLAudioAnalyzer

/-! ## C8 -/

/-- C8 counterexample: the buffer `[0]` with sample rate 100 satisfies the
data-model invariants (length ≥ 1, sample rate > 0), yet the pitch search's
minimum period is `⌊100/800⌋ = 0` and the search keeps it, so the record's
pitch field is `100 / 0` — `+Infinity` in IEEE arithmetic, not a finite
number. -/
theorem pitch_infinite_at_low_sample_rate :
    ¬ pitchFinite [0] 100 ∧ 1 ≤ ([(0:ℝ)]).length ∧ 0 < 100 := by
  refine ⟨?_, by norm_num, by norm_num⟩
  unfold pitchFinite
  rw [MLAudioAnalyzer.bestPeriod_of_autocorr_zero _ _
    (MLAudioAnalyzer.autocorrAt_silent (by intro x hx; simpa using hx))]
  norm_num

/-- C8 (amended): for buffers with at least one sample and sample rate ≥ 800
(so the pitch search's minimum candidate period `⌊sampleRate/800⌋` is at least
one sample), every arithmetic step feeding the feature record is well defined:
the selected pitch period is nonzero (finite pitch), the zero-crossing-rate and
energy denominators are positive, the argument of the square root in `rms` is
non-negative, every MFCC logarithm argument is positive (the `1e-10` epsilon
guard), and the flatness division, when executed, has a positive denominator.
For `0 < sampleRate < 800` the pitch is `sampleRate/0 = +Infinity` instead. -/
theorem features_welldefined (signal : List ℝ) (sampleRate : ℕ)
    (hlen : 1 ≤ signal.length) (hsr : 800 ≤ sampleRate) :
    pitchFinite signal sampleRate ∧
      0 < (signal.length : ℝ) / (sampleRate : ℝ) ∧
      (0:ℝ) < (signal.length : ℝ) ∧
      0 ≤ (MLAudioAnalyzer.extractFeatures signal sampleRate).temporalFeatures.energy ∧
      (∀ x ∈ MLAudioAnalyzer.applyMelFilters (audioUtils.performFFT (signal.take 2048))
          (MLAudioAnalyzer.createMelFilterBank 1024 sampleRate 26), 0 < x + 1e-10) ∧
      (0 < MLAudioAnalyzer.validBins (audioUtils.performFFT (signal.take 2048)) →
        0 < MLAudioAnalyzer.arithSum (audioUtils.performFFT (signal.take 2048)) /
          (MLAudioAnalyzer.validBins (audioUtils.performFFT (signal.take 2048)) : ℝ)) := by
  have hlenR : (0:ℝ) < (signal.length : ℝ) := by exact_mod_cast hlen
  have hsrR : (0:ℝ) < (sampleRate : ℝ) := by
    have : (0:ℕ) < sampleRate := by omega
    exact_mod_cast this
  refine ⟨?_, div_pos hlenR hsrR, hlenR, MLAudioAnalyzer.energy_nonneg signal sampleRate,
    ?_, ?_⟩
  · unfold pitchFinite
    have hmin : 1 ≤ sampleRate / 800 := (Nat.one_le_div_iff (by norm_num)).mpr hsr
    have := (MLAudioAnalyzer.bestPeriod_mem signal sampleRate).1
    omega
  · intro x hx
    have hx0 := MLAudioAnalyzer.melSum_nonneg (audioUtils.performFFT (signal.take 2048))
      (audioUtils.getD_performFFT_nonneg _) 1024 sampleRate 26 x hx
    have heps : (0:ℝ) < 1e-10 := by norm_num
    linarith
  · intro hv
    have hvR : (0:ℝ) < ((MLAudioAnalyzer.validBins (audioUtils.performFFT (signal.take 2048))) : ℝ) := by
      exact_mod_cast hv
    exact div_pos (MLAudioAnalyzer.arithSum_pos _ hv) hvR

/-- Witness for the amended C8 at the one-sample buffer `[1]` and sample rate 800. -/
theorem features_welldefined_witness :
    1 ≤ ([(1:ℝ)]).length ∧ 800 ≤ 800 ∧
      (pitchFinite [(1:ℝ)] 800 ∧
        0 < (([(1:ℝ)]).length : ℝ) / ((800:ℕ) : ℝ) ∧
        (0:ℝ) < (([(1:ℝ)]).length : ℝ) ∧
        0 ≤ (MLAudioAnalyzer.extractFeatures [(1:ℝ)] 800).temporalFeatures.energy ∧
        (∀ x ∈ MLAudioAnalyzer.applyMelFilters (audioUtils.performFFT (([(1:ℝ)]).take 2048))
            (MLAudioAnalyzer.createMelFilterBank 1024 800 26), 0 < x + 1e-10) ∧
        (0 < MLAudioAnalyzer.validBins (audioUtils.performFFT (([(1:ℝ)]).take 2048)) →
          0 < MLAudioAnalyzer.arithSum (audioUtils.performFFT (([(1:ℝ)]).take 2048)) /
            (MLAudioAnalyzer.validBins (audioUtils.performFFT (([(1:ℝ)]).take 2048)) : ℝ))) :=
  ⟨by norm_num, by norm_num, features_welldefined [(1:ℝ)] 800 (by norm_num) (by norm_num)⟩

/-! ## Silent-input helpers -/

namespace audioUtils

lemma rolloff_silent (spectrum : List ℝ) (sr : ℕ) (threshold : ℝ)
    (h : ∀ i, spectrum.getD i 0 = 0) :
    calculateSpectralRolloff spectrum sr threshold =
      if spectrum.length = 0 then (sr : ℝ) / 2 else 0 := by
  have htot : (∑ j in Finset.range spectrum.length, spectrum.getD j 0 ^ 2) = 0 :=
    Finset.sum_eq_zero fun j _ => by rw [h j]; ring
  have hcum : cumEnergy spectrum 0 = 0 :=
    Finset.sum_eq_zero fun j _ => by rw [h j]; ring
  simp only [calculateSpectralRolloff, htot, zero_mul]
  rcases Nat.eq_zero_or_pos spectrum.length with h0 | hpos
  · rw [h0]
    simp
  · obtain ⟨n, hn⟩ : ∃ n, spectrum.length = n + 1 := ⟨spectrum.length - 1, by omega⟩
    rw [hn, List.range_succ_eq_map, List.find?_cons_of_pos _ (by simp [hcum])]
    simp only [binFreq, Nat.cast_zero, zero_mul, zero_div]
    rw [if_neg (by omega)]

lemma centroid_silent (spectrum : List ℝ) (sr : ℕ) (h : ∀ i, spectrum.getD i 0 = 0) :
    calculateSpectralCentroid spectrum sr = 0 := by
  have hmag : (∑ i in Finset.range spectrum.length, spectrum.getD i 0) = 0 :=
    Finset.sum_eq_zero fun i _ => h i
  simp only [calculateSpectralCentroid, hmag]
  rw [if_neg (lt_irrefl 0)]

end audioUtils

namespace MLAudioAnalyzer

lemma bandwidth_silent (spectrum : List ℝ) (sr : ℕ) (centroid : ℝ)
    (h : ∀ i, spectrum.getD i 0 = 0) :
    calculateSpectralBandwidth spectrum sr centroid = 0 := by
  have hmag : (∑ i in Finset.range spectrum.length, spectrum.getD i 0) = 0 :=
    Finset.sum_eq_zero fun i _ => h i
  simp only [calculateSpectralBandwidth, hmag]
  rw [if_neg (lt_irrefl 0)]

lemma validBins_silent (spectrum : List ℝ) (h : ∀ i, spectrum.getD i 0 = 0) :
    validBins spectrum = 0 := by
  unfold validBins
  refine Finset.sum_eq_zero fun i _ => ?_
  rw [h i]
  simp

lemma flatness_silent (spectrum : List ℝ) (h : ∀ i, spectrum.getD i 0 = 0) :
    calculateSpectralFlatness spectrum = 0 := by
  unfold calculateSpectralFlatness
  rw [validBins_silent spectrum h]
  simp

lemma harmonicity_silent_spectrum (spectrum : List ℝ) (fundamental : ℝ) (sr : ℕ)
    (h : ∀ i, spectrum.getD i 0 = 0) :
    calculateHarmonicity spectrum fundamental sr = 0 := by
  have htot : (∑ i in Finset.range spectrum.length, spectrum.getD i 0 ^ 2) = 0 :=
    Finset.sum_eq_zero fun i _ => by rw [h i]; ring
  simp only [calculateHarmonicity, htot]
  split
  · rfl
  · rw [if_neg (lt_irrefl 0)]

lemma zeroCrossings_silent {signal : List ℝ} (h : ∀ x ∈ signal, x = 0) :
    zeroCrossings signal = 0 := by
  unfold zeroCrossings
  refine Finset.sum_eq_zero fun i _ => ?_
  rw [getD_silent h i, getD_silent h (i - 1)]
  simp

end MLAudioAnalyzer

/-! ## C2 -/

/-- C2 counterexample: on the silent four-sample buffer `[0,0,0,0]` (length ≥ 1
and sample rate 800 > 0) the rolloff is 0, not the claimed Nyquist 400: the
total squared energy is 0, so the cumulative energy already reaches
`0.85 × 0 = 0` at bin 0 and the "threshold never reached" fallback to
`sampleRate/2` is not taken. -/
theorem silent_rolloff_ne_nyquist :
    (∀ x ∈ ([0, 0, 0, 0] : List ℝ), x = 0) ∧
      (MLAudioAnalyzer.extractFeatures [0, 0, 0, 0] 800).spectralFeatures.rolloff = 0 ∧
      (MLAudioAnalyzer.extractFeatures [0, 0, 0, 0] 800).spectralFeatures.rolloff ≠
        (800 : ℝ) / 2 := by
  have hz : ∀ x ∈ ([0, 0, 0, 0] : List ℝ), x = 0 := by
    intro x hx
    simpa using hx
  have hro : (MLAudioAnalyzer.extractFeatures [0, 0, 0, 0] 800).spectralFeatures.rolloff =
      audioUtils.calculateSpectralRolloff
        (audioUtils.performFFT (([0, 0, 0, 0] : List ℝ).take 2048)) 800 0.85 := rfl
  have hspec : ∀ k, (audioUtils.performFFT (([0, 0, 0, 0] : List ℝ).take 2048)).getD k 0 = 0 :=
    audioUtils.getD_performFFT_silent (silent_take hz 2048)
  have hlen : (audioUtils.performFFT (([0, 0, 0, 0] : List ℝ).take 2048)).length = 2 := by
    rw [audioUtils.length_performFFT]
    rfl
  have h0 : (MLAudioAnalyzer.extractFeatures [0, 0, 0, 0] 800).spectralFeatures.rolloff = 0 := by
    rw [hro, audioUtils.rolloff_silent _ _ _ hspec, hlen]
    norm_num
  refine ⟨hz, h0, ?_⟩
  rw [h0]
  norm_num

/-- C2 (amended): for every silent buffer with length ≥ 1 and sample rate > 0,
centroid, bandwidth, flatness, harmonicity, rms and zcr are all 0, and the
rolloff is 0 as soon as the buffer has at least 2 samples (the zero cumulative
energy meets the zero threshold already at bin 0); the claimed Nyquist fallback
`sampleRate/2` occurs only for a one-sample buffer, whose spectrum is empty. -/
theorem extractFeatures_silent (signal : List ℝ) (sampleRate : ℕ)
    (_hlen : 1 ≤ signal.length) (_hsr : 0 < sampleRate) (hz : ∀ x ∈ signal, x = 0) :
    (MLAudioAnalyzer.extractFeatures signal sampleRate).spectralFeatures.centroid = 0 ∧
      (MLAudioAnalyzer.extractFeatures signal sampleRate).spectralFeatures.bandwidth = 0 ∧
      (MLAudioAnalyzer.extractFeatures signal sampleRate).spectralFeatures.flatness = 0 ∧
      (MLAudioAnalyzer.extractFeatures signal sampleRate).harmonicFeatures.harmonicity = 0 ∧
      (MLAudioAnalyzer.extractFeatures signal sampleRate).temporalFeatures.rms = 0 ∧
      (MLAudioAnalyzer.extractFeatures signal sampleRate).temporalFeatures.zcr = 0 ∧
      (2 ≤ signal.length →
        (MLAudioAnalyzer.extractFeatures signal sampleRate).spectralFeatures.rolloff = 0) ∧
      (signal.length = 1 →
        (MLAudioAnalyzer.extractFeatures signal sampleRate).spectralFeatures.rolloff =
          (sampleRate : ℝ) / 2) := by
  have hspec : ∀ k, (audioUtils.performFFT (signal.take 2048)).getD k 0 = 0 :=
    audioUtils.getD_performFFT_silent (silent_take hz 2048)
  have hsq : (∑ i in Finset.range signal.length, signal.getD i 0 ^ 2) = 0 :=
    Finset.sum_eq_zero fun i _ => by rw [getD_silent hz]; ring
  have hlenspec : (audioUtils.performFFT (signal.take 2048)).length =
      min 2048 signal.length / 2 := by
    rw [audioUtils.length_performFFT, List.length_take]
  refine ⟨?_, ?_, ?_, ?_, ?_, ?_, ?_, ?_⟩
  · exact audioUtils.centroid_silent _ _ hspec
  · exact MLAudioAnalyzer.bandwidth_silent _ _ _ hspec
  · exact MLAudioAnalyzer.flatness_silent _ hspec
  · exact MLAudioAnalyzer.harmonicity_silent_spectrum _ _ _ hspec
  · show Real.sqrt ((∑ i in Finset.range signal.length, signal.getD i 0 ^ 2) /
        (signal.length : ℝ)) = 0
    rw [hsq, zero_div, Real.sqrt_zero]
  · show (MLAudioAnalyzer.zeroCrossings signal : ℝ) /
        ((signal.length : ℝ) / (sampleRate : ℝ)) = 0
    rw [MLAudioAnalyzer.zeroCrossings_silent hz]
    simp
  · intro h2
    have hro : (MLAudioAnalyzer.extractFeatures signal sampleRate).spectralFeatures.rolloff =
        audioUtils.calculateSpectralRolloff (audioUtils.performFFT (signal.take 2048))
          sampleRate 0.85 := rfl
    rw [hro, audioUtils.rolloff_silent _ _ _ hspec,
      if_neg (by rw [hlenspec]; omega)]
  · intro h1
    have hro : (MLAudioAnalyzer.extractFeatures signal sampleRate).spectralFeatures.rolloff =
        audioUtils.calculateSpectralRolloff (audioUtils.performFFT (signal.take 2048))
          sampleRate 0.85 := rfl
    rw [hro, audioUtils.rolloff_silent _ _ _ hspec,
      if_pos (by rw [hlenspec, h1]; omega)]

/-- Witness for the amended C2 at the silent buffer `[0,0,0,0]`, sample rate 800. -/
theorem extractFeatures_silent_witness :
    1 ≤ ([(0:ℝ), 0, 0, 0]).length ∧ 0 < 800 ∧
      (MLAudioAnalyzer.extractFeatures [0, 0, 0, 0] 800).spectralFeatures.centroid = 0 ∧
      (MLAudioAnalyzer.extractFeatures [0, 0, 0, 0] 800).temporalFeatures.zcr = 0 ∧
      (MLAudioAnalyzer.extractFeatures [0, 0, 0, 0] 800).spectralFeatures.rolloff = 0 := by
  have hz : ∀ x ∈ ([0, 0, 0, 0] : List ℝ), x = 0 := by
    intro x hx
    simpa using hx
  have h := extractFeatures_silent [0, 0, 0, 0] 800 (by norm_num) (by norm_num) hz
  exact ⟨by norm_num, by norm_num, h.1, h.2.2.2.2.2.1, h.2.2.2.2.2.2.1 (by norm_num)⟩

/-! ## C4 -/

/-- C4 counterexample: on the spectrum `[0, 1/100]` the only valid bin is bin 1
with magnitude `1/100`, so the claimed value — geometric mean of the valid bins
over their arithmetic mean — would be `(1/100)/(1/100) = 1`; the code instead
computes `(1/100)^(1/2) / (1/100) = 10` because the exponent uses the full
spectrum length 2, not the valid-bin count 1.  The result also escapes the
claimed range `[0, 1]`. -/
theorem flatness_exceeds_one :
    MLAudioAnalyzer.calculateSpectralFlatness [0, 1/100] = 10 ∧
      ¬((10 : ℝ) ≤ 1) ∧ (10 : ℝ) ≠ 1 := by
  have hlen : ([0, 1/100] : List ℝ).length = 2 := rfl
  have hgd0 : ([0, 1/100] : List ℝ).getD 0 0 = 0 := rfl
  have hgd1 : ([0, 1/100] : List ℝ).getD 1 0 = 1/100 := rfl
  have hvb : MLAudioAnalyzer.validBins [0, 1/100] = 1 := by
    unfold MLAudioAnalyzer.validBins
    rw [hlen, Finset.sum_range_succ, Finset.sum_range_one, hgd0, hgd1]
    norm_num
  have hval : ((1/100 : ℝ)) ^ ((1 : ℝ)/2) = 1/10 := by
    rw [show (1/100 : ℝ) = (1/10 : ℝ) ^ (2 : ℕ) by norm_num,
      ← Real.rpow_natCast (1/10 : ℝ) 2, ← Real.rpow_mul (by norm_num : (0:ℝ) ≤ 1/10),
      show ((2 : ℕ) : ℝ) * ((1 : ℝ)/2) = 1 by norm_num, Real.rpow_one]
  have hgp : MLAudioAnalyzer.geoProd [0, 1/100] = 1/10 := by
    unfold MLAudioAnalyzer.geoProd
    rw [hlen, Finset.prod_range_succ, Finset.prod_range_one, hgd0, hgd1]
    rw [if_neg (by norm_num), if_pos (by norm_num), one_mul,
      show (1 / ((2 : ℕ) : ℝ)) = ((1 : ℝ)/2) by norm_num]
    exact hval
  have has : MLAudioAnalyzer.arithSum [0, 1/100] = 1/100 := by
    unfold MLAudioAnalyzer.arithSum
    rw [hlen, Finset.sum_range_succ, Finset.sum_range_one, hgd0, hgd1]
    norm_num
  refine ⟨?_, by norm_num, by norm_num⟩
  unfold MLAudioAnalyzer.calculateSpectralFlatness
  rw [hvb, hgp, has, if_pos (by norm_num)]
  norm_num

/-- C4 (amended): flatness is 0 when no valid bins exist and non-negative
always; when valid bins exist it equals the accumulated product of
`magnitude^(1/spectrumLength)` over the valid bins (exponent = full spectrum
length, not the valid-bin count — so it is not the geometric mean of those
bins) divided by their arithmetic mean, and it can exceed 1 for magnitudes
below 1. -/
theorem flatness_nonneg_zero_on_empty (spectrum : List ℝ) :
    0 ≤ MLAudioAnalyzer.calculateSpectralFlatness spectrum ∧
      (MLAudioAnalyzer.validBins spectrum = 0 →
        MLAudioAnalyzer.calculateSpectralFlatness spectrum = 0) ∧
      (0 < MLAudioAnalyzer.validBins spectrum →
        MLAudioAnalyzer.calculateSpectralFlatness spectrum =
          MLAudioAnalyzer.geoProd spectrum /
            (MLAudioAnalyzer.arithSum spectrum / (MLAudioAnalyzer.validBins spectrum : ℝ))) := by
  refine ⟨MLAudioAnalyzer.calculateSpectralFlatness_nonneg spectrum, fun h => ?_, fun h => ?_⟩
  · unfold MLAudioAnalyzer.calculateSpectralFlatness
    rw [h]
    simp
  · unfold MLAudioAnalyzer.calculateSpectralFlatness
    rw [if_pos h]

/-- Witness for the amended C4 at the all-zero spectrum `[0, 0]`. -/
theorem flatness_nonneg_zero_on_empty_witness :
    (MLAudioAnalyzer.validBins [0, 0] = 0 ∧
        MLAudioAnalyzer.calculateSpectralFlatness [0, 0] = 0) ∧
      0 ≤ MLAudioAnalyzer.calculateSpectralFlatness [0, 0] := by
  have hvb : MLAudioAnalyzer.validBins [0, 0] = 0 := by
    unfold MLAudioAnalyzer.validBins
    rw [show ([0, 0] : List ℝ).length = 2 from rfl, Finset.sum_range_succ,
      Finset.sum_range_one, show ([0, 0] : List ℝ).getD 0 0 = 0 from rfl,
      show ([0, 0] : List ℝ).getD 1 0 = 0 from rfl]
    norm_num
  have h := flatness_nonneg_zero_on_empty [0, 0]
  exact ⟨⟨hvb, h.2.1 hvb⟩, h.1⟩

/-! ## C9 -/

/-- C9: the spectral transform returns a magnitude spectrum of length `⌊N/2⌋`
for an `N`-sample frame, and each bin `k` holds
`sqrt(real_k² + imag_k²)` with `real_k = Σ x[n]·cos(-2πkn/N)` and
`imag_k = Σ x[n]·sin(-2πkn/N)`; on every frame (so in particular every
non-empty one) it returns normally, never failing. -/
theorem performFFT_contract (signal : List ℝ) (k : ℕ) (hk : k < signal.length / 2) :
    (audioUtils.performFFT signal).length = signal.length / 2 ∧
      (audioUtils.performFFT signal).getD k 0 =
        Real.sqrt
          ((∑ n in Finset.range signal.length,
              signal.getD n 0 *
                Real.cos (-(2 * Real.pi * (k : ℝ) * (n : ℝ)) / (signal.length : ℝ))) ^ 2 +
            (∑ n in Finset.range signal.length,
              signal.getD n 0 *
                Real.sin (-(2 * Real.pi * (k : ℝ) * (n : ℝ)) / (signal.length : ℝ))) ^ 2) := by
  refine ⟨audioUtils.length_performFFT signal, ?_⟩
  rw [audioUtils.getD_performFFT, if_pos hk]
  rfl

/-- Witness for C9 on the frame `[1, 0, 0, 0]` at bin 1. -/
theorem performFFT_contract_witness :
    1 < ([1, 0, 0, 0] : List ℝ).length / 2 ∧
      ((audioUtils.performFFT [1, 0, 0, 0]).length = ([1, 0, 0, 0] : List ℝ).length / 2 ∧
        (audioUtils.performFFT [1, 0, 0, 0]).getD 1 0 =
          Real.sqrt
            ((∑ n in Finset.range ([1, 0, 0, 0] : List ℝ).length,
                ([1, 0, 0, 0] : List ℝ).getD n 0 *
                  Real.cos (-(2 * Real.pi * ((1 : ℕ) : ℝ) * (n : ℝ)) /
                    (([1, 0, 0, 0] : List ℝ).length : ℝ))) ^ 2 +
              (∑ n in Finset.range ([1, 0, 0, 0] : List ℝ).length,
                ([1, 0, 0, 0] : List ℝ).getD n 0 *
                  Real.sin (-(2 * Real.pi * ((1 : ℕ) : ℝ) * (n : ℝ)) /
                    (([1, 0, 0, 0] : List ℝ).length : ℝ))) ^ 2)) :=
  ⟨by norm_num, performFFT_contract [1, 0, 0, 0] 1 (by norm_num)⟩

/-! ## Chroma helpers -/

lemma sum_map_range (f : ℕ → ℝ) (n : ℕ) :
    ((List.range n).map f).sum = ∑ i in Finset.range n, f i := by
  induction n with
  | zero => simp
  | succ m ih =>
    rw [List.range_succ, List.map_append, List.sum_append, Finset.sum_range_succ, ih]
    simp

namespace audioUtils

lemma chromaIndex_bounds (freq : ℝ) (h80 : 80 < freq) :
    0 ≤ chromaIndex freq ∧ chromaIndex freq < 12 := by
  have hfreqpos : (0:ℝ) < freq / 440 := by positivity
  have hlow : (-3 : ℝ) ≤ Real.logb 2 (freq / 440) := by
    rw [Real.le_logb_iff_rpow_le one_lt_two hfreqpos]
    have h8 : (2 : ℝ) ^ (-3 : ℝ) = 1 / 8 := by
      rw [show ((-3 : ℝ)) = ((-3 : ℤ) : ℝ) by norm_num, Real.rpow_intCast]
      norm_num
    rw [h8, div_le_div_iff₀ (by norm_num) (by norm_num)]
    linarith
  have hpitch : 0 ≤ chromaPitch freq := by
    unfold chromaPitch
    nlinarith
  have hround : 0 ≤ round (chromaPitch freq) := by
    rw [round_eq]
    exact Int.floor_nonneg.mpr (by linarith)
  unfold chromaIndex
  rw [Int.tmod_eq_emod hround (by norm_num)]
  exact ⟨Int.emod_nonneg _ (by norm_num), Int.emod_lt_of_pos _ (by norm_num)⟩

lemma binFreq_zero (len sr : ℕ) : binFreq 0 len sr = 0 := by
  simp [binFreq]

lemma sum_chromaRaw (spectrum : List ℝ) (sr : ℕ) :
    (∑ c in Finset.range 12, chromaRaw spectrum sr (c : ℤ)) =
      ∑ i in Finset.range spectrum.length,
        if 1 ≤ i ∧ 80 < binFreq i spectrum.length sr ∧ binFreq i spectrum.length sr < 8000
        then spectrum.getD i 0 else 0 := by
  unfold chromaRaw
  rw [Finset.sum_comm]
  refine Finset.sum_congr rfl fun i _ => ?_
  by_cases hc : 1 ≤ i ∧ 80 < binFreq i spectrum.length sr ∧ binFreq i spectrum.length sr < 8000
  · obtain ⟨hge, hlt⟩ := chromaIndex_bounds _ hc.2.1
    rw [if_pos hc]
    have hidx : (chromaIndex (binFreq i spectrum.length sr)).toNat < 12 := by omega
    rw [Finset.sum_eq_single ((chromaIndex (binFreq i spectrum.length sr)).toNat)]
    · rw [if_pos ⟨hc.1, hc.2.1, hc.2.2, hge, hlt, (Int.toNat_of_nonneg hge).symm⟩]
    · intro c _ hne
      rw [if_neg]
      rintro ⟨-, -, -, -, -, heq⟩
      exact hne (by omega)
    · intro habs
      exact absurd (Finset.mem_range.mpr hidx) habs
  · rw [if_neg hc]
    refine Finset.sum_eq_zero fun c _ => ?_
    rw [if_neg]
    rintro ⟨h1, h2, h3, -, -, -⟩
    exact hc ⟨h1, h2, h3⟩

end audioUtils

/-! ## C7 -/

/-- C7: for every buffer, the chroma vector has exactly 12 non-negative
elements; if some spectrum bin strictly inside (80, 8000) Hz carries positive
magnitude the vector is normalized to sum 1, and if every in-range bin is zero
the whole vector is zero. -/
theorem chroma_properties (signal : List ℝ) (sampleRate : ℕ) :
    (MLAudioAnalyzer.extractChroma signal sampleRate 2048).length = 12 ∧
      (∀ x ∈ MLAudioAnalyzer.extractChroma signal sampleRate 2048, 0 ≤ x) ∧
      ((∃ i, i < (audioUtils.performFFT (signal.take 2048)).length ∧
          80 < audioUtils.binFreq i (audioUtils.performFFT (signal.take 2048)).length
            sampleRate ∧
          audioUtils.binFreq i (audioUtils.performFFT (signal.take 2048)).length
            sampleRate < 8000 ∧
          0 < (audioUtils.performFFT (signal.take 2048)).getD i 0) →
        (MLAudioAnalyzer.extractChroma signal sampleRate 2048).sum = 1) ∧
      ((∀ i, i < (audioUtils.performFFT (signal.take 2048)).length →
          80 < audioUtils.binFreq i (audioUtils.performFFT (signal.take 2048)).length
            sampleRate →
          audioUtils.binFreq i (audioUtils.performFFT (signal.take 2048)).length
            sampleRate < 8000 →
          (audioUtils.performFFT (signal.take 2048)).getD i 0 = 0) →
        ∀ x ∈ MLAudioAnalyzer.extractChroma signal sampleRate 2048, x = 0) := by
  have hnn : ∀ i, 0 ≤ (audioUtils.performFFT (signal.take 2048)).getD i 0 :=
    audioUtils.getD_performFFT_nonneg _
  have hraw_nonneg : ∀ c : ℤ,
      0 ≤ audioUtils.chromaRaw (audioUtils.performFFT (signal.take 2048)) sampleRate c := by
    intro c
    refine Finset.sum_nonneg fun i _ => ?_
    split
    · exact hnn i
    · exact le_refl 0
  have hext : MLAudioAnalyzer.extractChroma signal sampleRate 2048 =
      audioUtils.calculateChroma (audioUtils.performFFT (signal.take 2048)) sampleRate := rfl
  have hlistsum : ((List.range 12).map fun c : ℕ =>
        audioUtils.chromaRaw (audioUtils.performFFT (signal.take 2048)) sampleRate (c : ℤ)).sum =
      ∑ c in Finset.range 12,
        audioUtils.chromaRaw (audioUtils.performFFT (signal.take 2048)) sampleRate (c : ℤ) :=
    sum_map_range _ 12
  refine ⟨?_, ?_, ?_, ?_⟩
  · rw [hext]
    simp only [audioUtils.calculateChroma]
    split <;> simp
  · intro x hx
    rw [hext] at hx
    simp only [audioUtils.calculateChroma] at hx
    split at hx
    · rename_i hS
      rcases List.mem_map.mp hx with ⟨y, hy, rfl⟩
      rcases List.mem_map.mp hy with ⟨c, _, rfl⟩
      exact div_nonneg (hraw_nonneg _) (le_of_lt hS)
    · rcases List.mem_map.mp hx with ⟨c, _, rfl⟩
      exact hraw_nonneg _
  · rintro ⟨i, hi, h80, h8000, hpos⟩
    have h1i : 1 ≤ i := by
      rcases Nat.eq_zero_or_pos i with rfl | h
      · rw [audioUtils.binFreq_zero] at h80
        linarith
      · exact h
    have hT_pos : 0 < ∑ j in Finset.range (audioUtils.performFFT (signal.take 2048)).length,
        (if 1 ≤ j ∧
            80 < audioUtils.binFreq j (audioUtils.performFFT (signal.take 2048)).length
              sampleRate ∧
            audioUtils.binFreq j (audioUtils.performFFT (signal.take 2048)).length
              sampleRate < 8000
          then (audioUtils.performFFT (signal.take 2048)).getD j 0 else 0) := by
      refine Finset.sum_pos' (fun j _ => ?_) ⟨i, Finset.mem_range.mpr hi, ?_⟩
      · split
        · exact hnn j
        · exact le_refl 0
      · rw [if_pos ⟨h1i, h80, h8000⟩]
        exact hpos
    have hS_pos : 0 < ((List.range 12).map fun c : ℕ =>
        audioUtils.chromaRaw (audioUtils.performFFT (signal.take 2048)) sampleRate (c : ℤ)).sum := by
      rw [hlistsum, audioUtils.sum_chromaRaw]
      exact hT_pos
    rw [hext]
    simp only [audioUtils.calculateChroma]
    rw [if_pos hS_pos, List.map_map, sum_map_range]
    simp only [Function.comp]
    rw [← Finset.sum_div, ← hlistsum]
    exact div_self (ne_of_gt hS_pos)
  · intro hz x hx
    have hraw0 : ∀ c : ℤ,
        audioUtils.chromaRaw (audioUtils.performFFT (signal.take 2048)) sampleRate c = 0 := by
      intro c
      refine Finset.sum_eq_zero fun j hj => ?_
      split
      · rename_i hcond
        exact hz j (Finset.mem_range.mp hj) hcond.2.1 hcond.2.2.1
      · rfl
    have hsum0 : ((List.range 12).map fun c : ℕ =>
        audioUtils.chromaRaw (audioUtils.performFFT (signal.take 2048)) sampleRate (c : ℤ)).sum =
        0 := by
      rw [hlistsum]
      exact Finset.sum_eq_zero fun c _ => hraw0 _
    rw [hext] at hx
    simp only [audioUtils.calculateChroma] at hx
    rw [if_neg (fun h => absurd (hsum0 ▸ h) (lt_irrefl 0))] at hx
    rcases List.mem_map.mp hx with ⟨c, _, rfl⟩
    exact hraw0 _

lemma take_quad : (([1, 0, 0, 0] : List ℝ)).take 2048 = [1, 0, 0, 0] := rfl

lemma fftReal_quad_one : audioUtils.fftReal [1, 0, 0, 0] 1 = 1 := by
  unfold audioUtils.fftReal
  simp [Finset.sum_range_succ]

lemma fftImag_quad_one : audioUtils.fftImag [1, 0, 0, 0] 1 = 0 := by
  unfold audioUtils.fftImag
  simp [Finset.sum_range_succ]

lemma performFFT_quad_bin1 : (audioUtils.performFFT [1, 0, 0, 0]).getD 1 0 = 1 := by
  rw [audioUtils.getD_performFFT, if_pos (by norm_num), fftReal_quad_one, fftImag_quad_one]
  norm_num

/-- Witness for C7: the buffer `[1,0,0,0]` at 1000 Hz has positive magnitude at
bin 1 (250 Hz, inside the 80–8000 Hz range), so its chroma sums to 1; the
silent buffer `[0,0,0,0]` has an all-zero chroma vector. -/
theorem chroma_properties_witness :
    (MLAudioAnalyzer.extractChroma [1, 0, 0, 0] 1000 2048).sum = 1 ∧
      (∀ x ∈ MLAudioAnalyzer.extractChroma [0, 0, 0, 0] 1000 2048, x = 0) := by
  constructor
  · refine (chroma_properties [1, 0, 0, 0] 1000).2.2.1 ⟨1, ?_, ?_, ?_, ?_⟩
    · rw [take_quad, audioUtils.length_performFFT]
      norm_num
    · rw [take_quad, audioUtils.length_performFFT]
      norm_num [audioUtils.binFreq]
    · rw [take_quad, audioUtils.length_performFFT]
      norm_num [audioUtils.binFreq]
    · rw [take_quad, performFFT_quad_bin1]
      norm_num
  · refine (chroma_properties [0, 0, 0, 0] 1000).2.2.2 ?_
    intro i _ _ _
    exact audioUtils.getD_performFFT_silent
      (silent_take (by intro x hx; simpa using hx) 2048) i
